import Mathlib

set_option maxRecDepth 8000

/-!
Verification of the noema-openclaw extension against its specification.

Strings are modelled as `List Char` (JS strings restricted to Unicode scalar
values, i.e. the "UTF-8 strings" the spec quantifies over); bytes as `Nat`
values below 256.

Part 1 embeds `src/decode.ts`:
  NOEMA_TOKEN_REGEX = /§b64:([A-Za-z0-9+/=]+)§/g
  decodeNoema       = text.replace(NOEMA_TOKEN_REGEX, cb) where cb decodes the
                      captured payload with Buffer.from(payload, "base64")
                      .toString("utf-8")
  hasNoemaTokens    = NOEMA_TOKEN_REGEX.lastIndex = 0; NOEMA_TOKEN_REGEX.test(text)
-/

/-- Shorthand turning a string literal into the `List Char` it denotes. -/
def strL (s : String) : List Char := s.toList

/-- The character class `[A-Za-z0-9+/=]` of NOEMA_TOKEN_REGEX. -/
def isB64Char (c : Char) : Bool :=
  ('A' ≤ c ∧ c ≤ 'Z') ∨ ('a' ≤ c ∧ c ≤ 'z') ∨ ('0' ≤ c ∧ c ≤ '9') ∨ c = '+' ∨ c = '/' ∨ c = '='

/-- Value of a base64 alphabet character (Node's unbase64 table restricted to
the alphabet); `none` for every character outside `A-Za-z0-9+/`. -/
def b64ValOf (c : Char) : Option Nat :=
  if 'A' ≤ c ∧ c ≤ 'Z' then some (c.toNat - 65)
  else if 'a' ≤ c ∧ c ≤ 'z' then some (c.toNat - 71)
  else if '0' ≤ c ∧ c ≤ '9' then some (c.toNat + 4)
  else if c = '+' then some 62
  else if c = '/' then some 63
  else none

/-- Regroup a stream of 6-bit values into 8-bit bytes, exactly as Node's
base64 decoder does: each full group of four sextets yields three bytes, a
trailing group of two or three sextets yields one or two bytes, and a lone
trailing sextet yields nothing. -/
def decodeSextets : List Nat → List Nat
  | a :: b :: c :: d :: rest =>
      (a * 4 + b / 16) :: (b % 16 * 16 + c / 4) :: (c % 4 * 64 + d) :: decodeSextets rest
  | [a, b] => [a * 4 + b / 16]
  | [a, b, c] => [a * 4 + b / 16, b % 16 * 16 + c / 4]
  | _ => []

/-- `Buffer.from(payload, "base64")` for Node: decoding never throws; it reads
base64 alphabet characters (skipping any other character) until the first `=`,
then regroups the collected sextets into bytes. -/
def nodeB64Decode (p : List Char) : List Nat :=
  decodeSextets ((p.takeWhile (fun c => c ≠ '=')).filterMap b64ValOf)

/-- U+FFFD, the replacement character used by `Buffer.toString("utf-8")` for
invalid byte sequences. -/
def uReplChar : Char := Char.ofNat 0xFFFD

/-- Lower bound of the second byte of a three-byte UTF-8 sequence (WHATWG). -/
def utf8Lo2 (b : Nat) : Nat := if b = 0xE0 then 0xA0 else 0x80

/-- Upper bound of the second byte of a three-byte UTF-8 sequence (WHATWG). -/
def utf8Hi2 (b : Nat) : Nat := if b = 0xED then 0x9F else 0xBF

/-- Lower bound of the second byte of a four-byte UTF-8 sequence (WHATWG). -/
def utf8Lo3 (b : Nat) : Nat := if b = 0xF0 then 0x90 else 0x80

/-- Upper bound of the second byte of a four-byte UTF-8 sequence (WHATWG). -/
def utf8Hi3 (b : Nat) : Nat := if b = 0xF4 then 0x8F else 0xBF

/-- `Buffer.toString("utf-8")`: WHATWG UTF-8 decoding with U+FFFD substitution
for maximal invalid subparts (never throws).  Fuel-indexed so that it reduces
by evaluation; each step consumes at least one byte, so fuel `l.length`
always suffices (see `utf8Decode`). -/
def utf8DecodeFuel : Nat → List Nat → List Char
  | 0, _ => []
  | _ + 1, [] => []
  | fuel + 1, b :: t =>
      if b < 0x80 then Char.ofNat b :: utf8DecodeFuel fuel t
      else if 0xC2 ≤ b ∧ b ≤ 0xDF then
        match t with
        | [] => [uReplChar]
        | b2 :: t2 =>
          if 0x80 ≤ b2 ∧ b2 ≤ 0xBF then
            Char.ofNat ((b - 0xC0) * 64 + (b2 - 0x80)) :: utf8DecodeFuel fuel t2
          else uReplChar :: utf8DecodeFuel fuel t
      else if 0xE0 ≤ b ∧ b ≤ 0xEF then
        match t with
        | [] => [uReplChar]
        | b2 :: t2 =>
          if utf8Lo2 b ≤ b2 ∧ b2 ≤ utf8Hi2 b then
            match t2 with
            | [] => [uReplChar]
            | b3 :: t3 =>
              if 0x80 ≤ b3 ∧ b3 ≤ 0xBF then
                Char.ofNat ((b - 0xE0) * 0x1000 + (b2 - 0x80) * 64 + (b3 - 0x80)) :: utf8DecodeFuel fuel t3
              else uReplChar :: utf8DecodeFuel fuel t2
          else uReplChar :: utf8DecodeFuel fuel t
      else if 0xF0 ≤ b ∧ b ≤ 0xF4 then
        match t with
        | [] => [uReplChar]
        | b2 :: t2 =>
          if utf8Lo3 b ≤ b2 ∧ b2 ≤ utf8Hi3 b then
            match t2 with
            | [] => [uReplChar]
            | b3 :: t3 =>
              if 0x80 ≤ b3 ∧ b3 ≤ 0xBF then
                match t3 with
                | [] => [uReplChar]
                | b4 :: t4 =>
                  if 0x80 ≤ b4 ∧ b4 ≤ 0xBF then
                    Char.ofNat ((b - 0xF0) * 0x40000 + (b2 - 0x80) * 0x1000 + (b3 - 0x80) * 64 + (b4 - 0x80)) :: utf8DecodeFuel fuel t4
                  else uReplChar :: utf8DecodeFuel fuel t3
              else uReplChar :: utf8DecodeFuel fuel t2
          else uReplChar :: utf8DecodeFuel fuel t
      else uReplChar :: utf8DecodeFuel fuel t

/-- `Buffer.toString("utf-8")` on a byte sequence. -/
def utf8Decode (l : List Nat) : List Char := utf8DecodeFuel l.length l

/-- The replacement applied to one captured payload in decodeNoema:
`Buffer.from(encoded, "base64").toString("utf-8")`.  (The surrounding
try/catch in the source is unreachable: neither Buffer.from nor toString
throws.) -/
def decPayload (p : List Char) : List Char := utf8Decode (nodeB64Decode p)

/-- Match NOEMA_TOKEN_REGEX at the start of the text: the literal `§b64:`,
then a maximal nonempty run of `[A-Za-z0-9+/=]` (the capture), then `§`.
Returns the capture and the text after the match.  A shorter run never
matches on backtracking because the character ending the run is in the class
iff the run was not maximal, and `§` is not in the class. -/
def tryToken : List Char → Option (List Char × List Char)
  | c0 :: c1 :: c2 :: c3 :: c4 :: t =>
    if c0 = '§' ∧ c1 = 'b' ∧ c2 = '6' ∧ c3 = '4' ∧ c4 = ':' then
      match t.dropWhile isB64Char with
      | c :: r =>
        if c = '§' then
          if (t.takeWhile isB64Char).isEmpty then none else some (t.takeWhile isB64Char, r)
        else none
      | _ => none
    else none
  | _ => none

/-- Fuel-indexed scanner for `String.replace` with a global regex: at each
position try the pattern; on a match emit the callback's replacement and
resume after the match (the replacement is not rescanned); otherwise copy one
character and advance.  Fuel `l.length` always suffices. -/
def decodeFuel : Nat → List Char → List Char
  | 0, l => l
  | _ + 1, [] => []
  | fuel + 1, c :: t =>
    match tryToken (c :: t) with
    | some (p, r) => decPayload p ++ decodeFuel fuel r
    | none => c :: decodeFuel fuel t

/-- `decodeNoema` from src/decode.ts: replace every NOEMA_TOKEN_REGEX match
by its base64-decoded payload. -/
def decodeNoema (l : List Char) : List Char := decodeFuel l.length l

/-- `hasNoemaTokens` from src/decode.ts: `NOEMA_TOKEN_REGEX.test(text)` after
resetting `lastIndex`, i.e. does the pattern match at some position. -/
def hasNoemaTokens : List Char → Bool
  | [] => false
  | c :: t => (tryToken (c :: t)).isSome || hasNoemaTokens t

/-- Standard UTF-8 encoding of one Unicode scalar value. -/
def utf8EncodeChar (c : Char) : List Nat :=
  let n := c.toNat
  if n < 0x80 then [n]
  else if n < 0x800 then [0xC0 + n / 64, 0x80 + n % 64]
  else if n < 0x10000 then [0xE0 + n / 0x1000, 0x80 + n / 64 % 64, 0x80 + n % 64]
  else [0xF0 + n / 0x40000, 0x80 + n / 0x1000 % 64, 0x80 + n / 64 % 64, 0x80 + n % 64]

/-- Standard UTF-8 encoding of a string. -/
def utf8Encode (s : List Char) : List Nat := (s.map utf8EncodeChar).flatten

/-- Character `n` of the standard base64 alphabet. -/
def b64Char (n : Nat) : Char :=
  if n < 26 then Char.ofNat (65 + n)
  else if n < 52 then Char.ofNat (71 + n)
  else if n < 62 then Char.ofNat (n - 4)
  else if n = 62 then '+'
  else '/'

/-- Standard base64 encoding of a byte sequence, with `=` padding. -/
def base64Encode : List Nat → List Char
  | [] => []
  | [a] => [b64Char (a / 4), b64Char (a % 4 * 16), '=', '=']
  | [a, b] => [b64Char (a / 4), b64Char (a % 4 * 16 + b / 16), b64Char (b % 16 * 4), '=']
  | a :: b :: c :: rest =>
      b64Char (a / 4) :: b64Char (a % 4 * 16 + b / 16) :: b64Char (b % 16 * 4 + c / 64) ::
        b64Char (c % 64) :: base64Encode rest

/-- The sextet stream underlying `base64Encode`, without the padding. -/
def encodeSextets : List Nat → List Nat
  | [] => []
  | [a] => [a / 4, a % 4 * 16]
  | [a, b] => [a / 4, a % 4 * 16 + b / 16, b % 16 * 4]
  | a :: b :: c :: rest =>
      a / 4 :: (a % 4 * 16 + b / 16) :: (b % 16 * 4 + c / 64) :: c % 64 :: encodeSextets rest

/-- The token encoding of a string, as the spec describes the Field Encoder's
output (§6): the literal open delimiter `§b64:`, the standard base64 of the
UTF-8 bytes, and the close delimiter `§`. -/
def encodeAsToken (s : List Char) : List Char :=
  '§' :: 'b' :: '6' :: '4' :: ':' :: (base64Encode (utf8Encode s) ++ ['§'])

/-- Modelled from the spec: "Payload is standard base64 of UTF-8 bytes" (§6).
Syntactic validity of a payload under standard (strict) base64: groups of
four, characters from the alphabet, with at most two `=` of padding at the
very end.  The repository itself never checks this; Node's decoder is
lenient. -/
def validStdBase64 (p : List Char) : Bool :=
  p.length % 4 = 0 ∧
  (p.takeWhile (fun c => c ≠ '=')).all (fun c => isB64Char c ∧ c ≠ '=') ∧
  (p.dropWhile (fun c => c ≠ '=')).all (fun c => c = '=') ∧
  (p.dropWhile (fun c => c ≠ '=')).length ≤ 2

/-! ### Scanner lemmas -/

theorem dropWhile_len_le (q : Char → Bool) : ∀ l : List Char, (l.dropWhile q).length ≤ l.length := by
  intro l
  induction l with
  | nil => simp [List.dropWhile]
  | cons c t ih =>
    simp only [List.dropWhile]
    cases q c <;> simp <;> omega

theorem takeWhile_append_all (q : Char → Bool) (x : Char) (r : List Char)
    (hx : q x = false) :
    ∀ p : List Char, (∀ c ∈ p, q c = true) → (p ++ x :: r).takeWhile q = p := by
  intro p
  induction p with
  | nil => intro _; simp [List.takeWhile, hx]
  | cons c t ih =>
    intro h
    have hc : q c = true := h c (by simp)
    simp only [List.cons_append, List.takeWhile, hc]
    exact congrArg (List.cons c) (ih (fun d hd => h d (by simp [hd])))

theorem dropWhile_append_all (q : Char → Bool) (x : Char) (r : List Char)
    (hx : q x = false) :
    ∀ p : List Char, (∀ c ∈ p, q c = true) → (p ++ x :: r).dropWhile q = x :: r := by
  intro p
  induction p with
  | nil => simp [List.dropWhile, hx]
  | cons c t ih =>
    intro h
    have hc : q c = true := h c (by simp)
    simp only [List.cons_append, List.dropWhile, hc]
    exact ih (fun d hd => h d (by simp [hd]))

theorem tryToken_len {l p r : List Char} (h : tryToken l = some (p, r)) :
    r.length < l.length := by
  unfold tryToken at h
  split at h
  case _ c0 c1 c2 c3 c4 t =>
    split at h
    · split at h
      case _ c r' heq =>
        split at h
        · split at h
          · exact absurd h (by simp)
          · injection h with h3
            injection h3 with hp hr
            subst hr
            have hlen : (t.dropWhile isB64Char).length ≤ t.length := dropWhile_len_le isB64Char t
            rw [heq] at hlen
            simp only [List.length_cons] at hlen ⊢
            omega
        · exact absurd h (by simp)
      case _ => exact absurd h (by simp)
    · exact absurd h (by simp)
  case _ => exact absurd h (by simp)

theorem decodeFuel_cons_none (fuel : Nat) {c : Char} {t : List Char}
    (h : tryToken (c :: t) = none) :
    decodeFuel (fuel + 1) (c :: t) = c :: decodeFuel fuel t := by
  simp [decodeFuel, h]

theorem decodeFuel_cons_some (fuel : Nat) {c : Char} {t p r : List Char}
    (h : tryToken (c :: t) = some (p, r)) :
    decodeFuel (fuel + 1) (c :: t) = decPayload p ++ decodeFuel fuel r := by
  simp [decodeFuel, h]

theorem decodeFuel_congr : ∀ n m : Nat, ∀ l : List Char,
    l.length ≤ n → l.length ≤ m → decodeFuel n l = decodeFuel m l := by
  intro n
  induction n with
  | zero =>
    intro m l hn _
    have : l = [] := by
      cases l with
      | nil => rfl
      | cons c t => simp at hn
    subst this
    cases m <;> rfl
  | succ n ih =>
    intro m l hn hm
    cases l with
    | nil => cases m <;> rfl
    | cons c t =>
      cases m with
      | zero => simp at hm
      | succ m =>
        cases htt : tryToken (c :: t) with
        | none =>
          rw [decodeFuel_cons_none n htt, decodeFuel_cons_none m htt]
          have ht : t.length ≤ n := by simp at hn; omega
          have ht2 : t.length ≤ m := by simp at hm; omega
          rw [ih m t ht ht2]
        | some pr =>
          obtain ⟨p, r⟩ := pr
          rw [decodeFuel_cons_some n htt, decodeFuel_cons_some m htt]
          have hr : r.length < (c :: t).length := tryToken_len htt
          have h1 : r.length ≤ n := by simp at hn hr ⊢; omega
          have h2 : r.length ≤ m := by simp at hm hr ⊢; omega
          rw [ih m r h1 h2]

theorem decodeNoema_nil : decodeNoema [] = [] := rfl

theorem decodeNoema_cons_none {c : Char} {t : List Char} (h : tryToken (c :: t) = none) :
    decodeNoema (c :: t) = c :: decodeNoema t := by
  show decodeFuel (t.length + 1) (c :: t) = c :: decodeNoema t
  rw [decodeFuel_cons_none t.length h]
  rfl

theorem decodeNoema_cons_some {c : Char} {t p r : List Char}
    (h : tryToken (c :: t) = some (p, r)) :
    decodeNoema (c :: t) = decPayload p ++ decodeNoema r := by
  show decodeFuel (t.length + 1) (c :: t) = decPayload p ++ decodeNoema r
  rw [decodeFuel_cons_some t.length h]
  have hr : r.length < (c :: t).length := tryToken_len h
  simp only [List.length_cons] at hr
  rw [decodeFuel_congr t.length r.length r (by omega) (le_refl _)]
  rfl

theorem isB64Char_sect : isB64Char '§' = false := by decide

theorem tryToken_at_token (p r : List Char) (hne : p ≠ [])
    (hall : ∀ c ∈ p, isB64Char c = true) :
    tryToken ('§' :: 'b' :: '6' :: '4' :: ':' :: (p ++ '§' :: r)) = some (p, r) := by
  have htw : (p ++ '§' :: r).takeWhile isB64Char = p :=
    takeWhile_append_all isB64Char '§' r isB64Char_sect p hall
  have hdw : (p ++ '§' :: r).dropWhile isB64Char = '§' :: r :=
    dropWhile_append_all isB64Char '§' r isB64Char_sect p hall
  simp [tryToken, hdw, htw, List.isEmpty_iff, hne]

theorem decodeNoema_token (p r : List Char) (hne : p ≠ [])
    (hall : ∀ c ∈ p, isB64Char c = true) :
    decodeNoema ('§' :: 'b' :: '6' :: '4' :: ':' :: (p ++ '§' :: r)) =
      decPayload p ++ decodeNoema r :=
  decodeNoema_cons_some (tryToken_at_token p r hne hall)

/-! ### Base64 round-trip -/

theorem b64ValOf_b64Char : ∀ n : Nat, n < 64 → b64ValOf (b64Char n) = some n := by decide

theorem b64Char_decide_ne_pad : ∀ n : Nat, n < 64 → decide (b64Char n ≠ '=') = true := by decide

theorem b64Char_in_class : ∀ n : Nat, n < 64 → isB64Char (b64Char n) = true := by decide

theorem decSex_encSex : ∀ l : List Nat, (∀ x ∈ l, x < 256) →
    decodeSextets (encodeSextets l) = l
  | [], _ => rfl
  | [a], h => by
    have ha : a < 256 := h a (by simp)
    simp only [encodeSextets, decodeSextets]
    have e1 : a / 4 * 4 + a % 4 * 16 / 16 = a := by omega
    rw [e1]
  | [a, b], h => by
    have ha : a < 256 := h a (by simp)
    have hb : b < 256 := h b (by simp)
    simp only [encodeSextets, decodeSextets]
    have e1 : a / 4 * 4 + (a % 4 * 16 + b / 16) / 16 = a := by omega
    have e2 : (a % 4 * 16 + b / 16) % 16 * 16 + b % 16 * 4 / 4 = b := by omega
    rw [e1, e2]
  | a :: b :: c :: rest, h => by
    have ha : a < 256 := h a (by simp)
    have hb : b < 256 := h b (by simp)
    have hc : c < 256 := h c (by simp)
    have ih := decSex_encSex rest (fun x hx => h x (by simp [hx]))
    simp only [encodeSextets, decodeSextets]
    rw [ih]
    have e1 : a / 4 * 4 + (a % 4 * 16 + b / 16) / 16 = a := by omega
    have e2 : (a % 4 * 16 + b / 16) % 16 * 16 + (b % 16 * 4 + c / 64) / 4 = b := by omega
    have e3 : (b % 16 * 4 + c / 64) % 4 * 64 + c % 64 = c := by omega
    rw [e1, e2, e3]

theorem encB64_sextets : ∀ l : List Nat, (∀ x ∈ l, x < 256) →
    ((base64Encode l).takeWhile (fun c => c ≠ '=')).filterMap b64ValOf = encodeSextets l
  | [], _ => rfl
  | [a], h => by
    have ha : a < 256 := h a (by simp)
    have h1 : a / 4 < 64 := by omega
    have h2 : a % 4 * 16 < 64 := by omega
    simp only [base64Encode, encodeSextets, List.takeWhile_cons,
      b64Char_decide_ne_pad _ h1, b64Char_decide_ne_pad _ h2]
    simp [List.takeWhile_cons, List.filterMap_cons,
      b64ValOf_b64Char _ h1, b64ValOf_b64Char _ h2]
  | [a, b], h => by
    have ha : a < 256 := h a (by simp)
    have hb : b < 256 := h b (by simp)
    have h1 : a / 4 < 64 := by omega
    have h2 : a % 4 * 16 + b / 16 < 64 := by omega
    have h3 : b % 16 * 4 < 64 := by omega
    simp only [base64Encode, encodeSextets, List.takeWhile_cons,
      b64Char_decide_ne_pad _ h1, b64Char_decide_ne_pad _ h2, b64Char_decide_ne_pad _ h3]
    simp [List.takeWhile_cons, List.filterMap_cons,
      b64ValOf_b64Char _ h1, b64ValOf_b64Char _ h2, b64ValOf_b64Char _ h3]
  | a :: b :: c :: rest, h => by
    have ha : a < 256 := h a (by simp)
    have hb : b < 256 := h b (by simp)
    have hc : c < 256 := h c (by simp)
    have ih := encB64_sextets rest (fun x hx => h x (by simp [hx]))
    have h1 : a / 4 < 64 := by omega
    have h2 : a % 4 * 16 + b / 16 < 64 := by omega
    have h3 : b % 16 * 4 + c / 64 < 64 := by omega
    have h4 : c % 64 < 64 := by omega
    simp only [base64Encode, encodeSextets, List.takeWhile_cons,
      b64Char_decide_ne_pad _ h1, b64Char_decide_ne_pad _ h2,
      b64Char_decide_ne_pad _ h3, b64Char_decide_ne_pad _ h4,
      if_true, List.filterMap_cons,
      b64ValOf_b64Char _ h1, b64ValOf_b64Char _ h2,
      b64ValOf_b64Char _ h3, b64ValOf_b64Char _ h4]
    rw [ih]

theorem nodeB64_roundtrip (l : List Nat) (h : ∀ x ∈ l, x < 256) :
    nodeB64Decode (base64Encode l) = l := by
  unfold nodeB64Decode
  rw [encB64_sextets l h, decSex_encSex l h]

theorem base64Encode_charset : ∀ l : List Nat, (∀ x ∈ l, x < 256) →
    ∀ c ∈ base64Encode l, isB64Char c = true
  | [], _ => by simp [base64Encode]
  | [a], h => by
    have ha : a < 256 := h a (by simp)
    intro c hc
    simp only [base64Encode, List.mem_cons, List.not_mem_nil, or_false] at hc
    rcases hc with rfl | rfl | rfl | rfl
    · exact b64Char_in_class _ (by omega)
    · exact b64Char_in_class _ (by omega)
    · decide
    · decide
  | [a, b], h => by
    have ha : a < 256 := h a (by simp)
    have hb : b < 256 := h b (by simp)
    intro c hc
    simp only [base64Encode, List.mem_cons, List.not_mem_nil, or_false] at hc
    rcases hc with rfl | rfl | rfl | rfl
    · exact b64Char_in_class _ (by omega)
    · exact b64Char_in_class _ (by omega)
    · exact b64Char_in_class _ (by omega)
    · decide
  | a :: b :: c :: rest, h => by
    have ha : a < 256 := h a (by simp)
    have hb : b < 256 := h b (by simp)
    have hc : c < 256 := h c (by simp)
    have ih := base64Encode_charset rest (fun x hx => h x (by simp [hx]))
    intro d hd
    simp only [base64Encode, List.mem_cons] at hd
    rcases hd with rfl | rfl | rfl | rfl | hd
    · exact b64Char_in_class _ (by omega)
    · exact b64Char_in_class _ (by omega)
    · exact b64Char_in_class _ (by omega)
    · exact b64Char_in_class _ (by omega)
    · exact ih d hd

theorem base64Encode_ne_nil : ∀ l : List Nat, l ≠ [] → base64Encode l ≠ [] := by
  intro l hl
  match l with
  | [] => exact absurd rfl hl
  | [a] => simp [base64Encode]
  | [a, b] => simp [base64Encode]
  | a :: b :: c :: rest => simp [base64Encode]

/-! ### UTF-8 round-trip -/

theorem utf8DecodeFuel_congr : ∀ n m : Nat, ∀ l : List Nat,
    l.length ≤ n → l.length ≤ m → utf8DecodeFuel n l = utf8DecodeFuel m l := by
  intro n
  induction n with
  | zero =>
    intro m l hn _
    have : l = [] := by
      cases l with
      | nil => rfl
      | cons b t => simp at hn
    subst this
    cases m <;> rfl
  | succ n ih =>
    intro m l hn hm
    cases l with
    | nil => cases m <;> rfl
    | cons b t =>
      cases m with
      | zero => simp at hm
      | succ m =>
        have hrec : ∀ u : List Nat, u.length ≤ t.length → utf8DecodeFuel n u = utf8DecodeFuel m u := by
          intro u hu
          have h1 : u.length ≤ n := by simp at hn; omega
          have h2 : u.length ≤ m := by simp at hm; omega
          exact ih m u h1 h2
        simp only [utf8DecodeFuel]
        by_cases h1 : b < 0x80
        · simp only [if_pos h1]
          exact congrArg _ (hrec t le_rfl)
        simp only [if_neg h1]
        by_cases h2 : 0xC2 ≤ b ∧ b ≤ 0xDF
        · simp only [if_pos h2]
          cases t with
          | nil => rfl
          | cons b2 t2 =>
            by_cases hb2 : 0x80 ≤ b2 ∧ b2 ≤ 0xBF
            · simp only [if_pos hb2]
              exact congrArg _ (hrec t2 (by simp))
            · simp only [if_neg hb2]
              exact congrArg _ (hrec (b2 :: t2) le_rfl)
        simp only [if_neg h2]
        by_cases h3 : 0xE0 ≤ b ∧ b ≤ 0xEF
        · simp only [if_pos h3]
          cases t with
          | nil => rfl
          | cons b2 t2 =>
            by_cases hb2 : utf8Lo2 b ≤ b2 ∧ b2 ≤ utf8Hi2 b
            · simp only [if_pos hb2]
              cases t2 with
              | nil => rfl
              | cons b3 t3 =>
                by_cases hb3 : 0x80 ≤ b3 ∧ b3 ≤ 0xBF
                · simp only [if_pos hb3]
                  exact congrArg _ (hrec t3 (by simp only [List.length_cons]; omega))
                · simp only [if_neg hb3]
                  exact congrArg _ (hrec (b3 :: t3) (by simp))
            · simp only [if_neg hb2]
              exact congrArg _ (hrec (b2 :: t2) le_rfl)
        simp only [if_neg h3]
        by_cases h4 : 0xF0 ≤ b ∧ b ≤ 0xF4
        · simp only [if_pos h4]
          cases t with
          | nil => rfl
          | cons b2 t2 =>
            by_cases hb2 : utf8Lo3 b ≤ b2 ∧ b2 ≤ utf8Hi3 b
            · simp only [if_pos hb2]
              cases t2 with
              | nil => rfl
              | cons b3 t3 =>
                by_cases hb3 : 0x80 ≤ b3 ∧ b3 ≤ 0xBF
                · simp only [if_pos hb3]
                  cases t3 with
                  | nil => rfl
                  | cons b4 t4 =>
                    by_cases hb4 : 0x80 ≤ b4 ∧ b4 ≤ 0xBF
                    · simp only [if_pos hb4]
                      exact congrArg _ (hrec t4 (by simp only [List.length_cons]; omega))
                    · simp only [if_neg hb4]
                      exact congrArg _ (hrec (b4 :: t4) (by simp only [List.length_cons]; omega))
                · simp only [if_neg hb3]
                  exact congrArg _ (hrec (b3 :: t3) (by simp))
            · simp only [if_neg hb2]
              exact congrArg _ (hrec (b2 :: t2) le_rfl)
        simp only [if_neg h4]
        exact congrArg _ (hrec t le_rfl)

theorem utf8Decode_step1 (b : Nat) (rest : List Nat) (h : b < 0x80) :
    utf8Decode (b :: rest) = Char.ofNat b :: utf8Decode rest := by
  show utf8DecodeFuel (rest.length + 1) (b :: rest) = _
  simp only [utf8DecodeFuel, if_pos h]
  rfl

theorem utf8Decode_step2 (b1 b2 : Nat) (rest : List Nat)
    (h1 : 0xC2 ≤ b1) (h2 : b1 ≤ 0xDF) (h3 : 0x80 ≤ b2) (h4 : b2 ≤ 0xBF) :
    utf8Decode (b1 :: b2 :: rest) =
      Char.ofNat ((b1 - 0xC0) * 64 + (b2 - 0x80)) :: utf8Decode rest := by
  show utf8DecodeFuel (rest.length + 2) (b1 :: b2 :: rest) = _
  simp only [utf8DecodeFuel]
  rw [if_neg (by omega), if_pos ⟨h1, h2⟩, if_pos ⟨h3, h4⟩]
  rw [utf8DecodeFuel_congr (rest.length + 1) rest.length rest (by omega) le_rfl]
  rfl

theorem utf8Decode_step3 (b1 b2 b3 : Nat) (rest : List Nat)
    (h1 : 0xE0 ≤ b1) (h2 : b1 ≤ 0xEF)
    (h3 : utf8Lo2 b1 ≤ b2) (h4 : b2 ≤ utf8Hi2 b1)
    (h5 : 0x80 ≤ b3) (h6 : b3 ≤ 0xBF) :
    utf8Decode (b1 :: b2 :: b3 :: rest) =
      Char.ofNat ((b1 - 0xE0) * 0x1000 + (b2 - 0x80) * 64 + (b3 - 0x80)) :: utf8Decode rest := by
  show utf8DecodeFuel (rest.length + 3) (b1 :: b2 :: b3 :: rest) = _
  simp only [utf8DecodeFuel]
  rw [if_neg (by omega), if_neg (by omega), if_pos ⟨h1, h2⟩, if_pos ⟨h3, h4⟩, if_pos ⟨h5, h6⟩]
  rw [utf8DecodeFuel_congr (rest.length + 2) rest.length rest (by omega) le_rfl]
  rfl

theorem utf8Decode_step4 (b1 b2 b3 b4 : Nat) (rest : List Nat)
    (h1 : 0xF0 ≤ b1) (h2 : b1 ≤ 0xF4)
    (h3 : utf8Lo3 b1 ≤ b2) (h4 : b2 ≤ utf8Hi3 b1)
    (h5 : 0x80 ≤ b3) (h6 : b3 ≤ 0xBF) (h7 : 0x80 ≤ b4) (h8 : b4 ≤ 0xBF) :
    utf8Decode (b1 :: b2 :: b3 :: b4 :: rest) =
      Char.ofNat ((b1 - 0xF0) * 0x40000 + (b2 - 0x80) * 0x1000 + (b3 - 0x80) * 64 + (b4 - 0x80)) ::
        utf8Decode rest := by
  show utf8DecodeFuel (rest.length + 4) (b1 :: b2 :: b3 :: b4 :: rest) = _
  simp only [utf8DecodeFuel]
  rw [if_neg (by omega), if_neg (by omega), if_neg (by omega), if_pos ⟨h1, h2⟩,
    if_pos ⟨h3, h4⟩, if_pos ⟨h5, h6⟩, if_pos ⟨h7, h8⟩]
  rw [utf8DecodeFuel_congr (rest.length + 3) rest.length rest (by omega) le_rfl]
  rfl

theorem utf8_rt_char (c : Char) (rest : List Nat) :
    utf8Decode (utf8EncodeChar c ++ rest) = c :: utf8Decode rest := by
  have hofn : Char.ofNat c.toNat = c := Char.ofNat_toNat c
  have hv : c.toNat < 0xD800 ∨ (0xDFFF < c.toNat ∧ c.toNat < 0x110000) := c.valid
  by_cases h1 : c.toNat < 0x80
  · have he : utf8EncodeChar c = [c.toNat] := by
      simp only [utf8EncodeChar]
      rw [if_pos h1]
    rw [he, List.singleton_append, utf8Decode_step1 _ _ h1, hofn]
  · by_cases h2 : c.toNat < 0x800
    · have he : utf8EncodeChar c = [0xC0 + c.toNat / 64, 0x80 + c.toNat % 64] := by
        simp only [utf8EncodeChar]
        rw [if_neg h1, if_pos h2]
      rw [he, List.cons_append, List.singleton_append]
      rw [utf8Decode_step2 (0xC0 + c.toNat / 64) (0x80 + c.toNat % 64) rest
        (by omega) (by omega) (by omega) (by omega)]
      congr 1
      rw [show (0xC0 + c.toNat / 64 - 0xC0) * 64 + (0x80 + c.toNat % 64 - 0x80) = c.toNat by omega]
      exact hofn
    · by_cases h3 : c.toNat < 0x10000
      · have he : utf8EncodeChar c =
            [0xE0 + c.toNat / 0x1000, 0x80 + c.toNat / 64 % 64, 0x80 + c.toNat % 64] := by
          simp only [utf8EncodeChar]
          rw [if_neg h1, if_neg h2, if_pos h3]
        have hlo : utf8Lo2 (0xE0 + c.toNat / 0x1000) ≤ 0x80 + c.toNat / 64 % 64 := by
          unfold utf8Lo2
          split
          case isTrue hsp => omega
          case isFalse hsp => omega
        have hhi : 0x80 + c.toNat / 64 % 64 ≤ utf8Hi2 (0xE0 + c.toNat / 0x1000) := by
          unfold utf8Hi2
          split
          case isTrue hsp => omega
          case isFalse hsp => omega
        rw [he, List.cons_append, List.cons_append, List.singleton_append]
        rw [utf8Decode_step3 (0xE0 + c.toNat / 0x1000) (0x80 + c.toNat / 64 % 64)
          (0x80 + c.toNat % 64) rest (by omega) (by omega) hlo hhi (by omega) (by omega)]
        congr 1
        rw [show (0xE0 + c.toNat / 0x1000 - 0xE0) * 0x1000 + (0x80 + c.toNat / 64 % 64 - 0x80) * 64 +
            (0x80 + c.toNat % 64 - 0x80) = c.toNat by omega]
        exact hofn
      · have hub : c.toNat < 0x110000 := by omega
        have he : utf8EncodeChar c =
            [0xF0 + c.toNat / 0x40000, 0x80 + c.toNat / 0x1000 % 64,
             0x80 + c.toNat / 64 % 64, 0x80 + c.toNat % 64] := by
          simp only [utf8EncodeChar]
          rw [if_neg h1, if_neg h2, if_neg h3]
        have hlo : utf8Lo3 (0xF0 + c.toNat / 0x40000) ≤ 0x80 + c.toNat / 0x1000 % 64 := by
          unfold utf8Lo3
          split
          case isTrue hsp => omega
          case isFalse hsp => omega
        have hhi : 0x80 + c.toNat / 0x1000 % 64 ≤ utf8Hi3 (0xF0 + c.toNat / 0x40000) := by
          unfold utf8Hi3
          split
          case isTrue hsp => omega
          case isFalse hsp => omega
        rw [he, List.cons_append, List.cons_append, List.cons_append, List.singleton_append]
        rw [utf8Decode_step4 (0xF0 + c.toNat / 0x40000) (0x80 + c.toNat / 0x1000 % 64)
          (0x80 + c.toNat / 64 % 64) (0x80 + c.toNat % 64) rest (by omega) (by omega) hlo hhi
          (by omega) (by omega) (by omega) (by omega)]
        congr 1
        rw [show (0xF0 + c.toNat / 0x40000 - 0xF0) * 0x40000 +
            (0x80 + c.toNat / 0x1000 % 64 - 0x80) * 0x1000 +
            (0x80 + c.toNat / 64 % 64 - 0x80) * 64 + (0x80 + c.toNat % 64 - 0x80) = c.toNat by omega]
        exact hofn

theorem utf8_roundtrip : ∀ s : List Char, utf8Decode (utf8Encode s) = s := by
  intro s
  induction s with
  | nil => rfl
  | cons c s ih =>
    have : utf8Encode (c :: s) = utf8EncodeChar c ++ utf8Encode s := by
      simp [utf8Encode]
    rw [this, utf8_rt_char, ih]

theorem utf8EncodeChar_lt (c : Char) : ∀ b ∈ utf8EncodeChar c, b < 256 := by
  have hv : c.toNat < 0xD800 ∨ (0xDFFF < c.toNat ∧ c.toNat < 0x110000) := c.valid
  have hub : c.toNat < 0x110000 := by omega
  intro b hb
  simp only [utf8EncodeChar] at hb
  split_ifs at hb with h1 h2 h3 <;> simp at hb <;> omega

theorem utf8Encode_lt (s : List Char) : ∀ b ∈ utf8Encode s, b < 256 := by
  intro b hb
  simp only [utf8Encode, List.mem_flatten, List.mem_map] at hb
  obtain ⟨l, ⟨c, _, rfl⟩, hbl⟩ := hb
  exact utf8EncodeChar_lt c b hbl

theorem utf8EncodeChar_ne_nil (c : Char) : utf8EncodeChar c ≠ [] := by
  simp only [utf8EncodeChar]
  split_ifs <;> simp

theorem utf8Encode_ne_nil (s : List Char) (h : s ≠ []) : utf8Encode s ≠ [] := by
  cases s with
  | nil => exact absurd rfl h
  | cons c s =>
    have : utf8Encode (c :: s) = utf8EncodeChar c ++ utf8Encode s := by simp [utf8Encode]
    rw [this]
    simp [utf8EncodeChar_ne_nil c]

/-! ### Regex state model (for the purity claim)

`String.replace` with a global regex (ECMA-262 Symbol.replace) sets
`lastIndex` to 0 before scanning and `RegExpBuiltinExec` resets it to 0 when
the final scan finds no further match, so a replace call both ignores and
zeroes the shared `lastIndex`.  `hasNoemaTokens` assigns `lastIndex = 0`
itself (src/decode.ts line 32) and then calls `test`, which leaves
`lastIndex` at the end of the first match when one exists and at 0
otherwise. -/

/-- `NOEMA_TOKEN_REGEX.test` starting at position 0, returning the result and
the updated `lastIndex`. -/
def testExec : List Char → Nat → Bool × Nat
  | [], _ => (false, 0)
  | c :: t, i =>
    match tryToken (c :: t) with
    | some (_, r) => (true, i + ((c :: t).length - r.length))
    | none => testExec t (i + 1)

/-- `decodeNoema` acting on the shared regex state: the incoming `lastIndex`
is ignored (Symbol.replace zeroes it) and the final failed scan leaves it 0. -/
def decodeNoemaS (_σ : Nat) (l : List Char) : List Char × Nat := (decodeNoema l, 0)

/-- `hasNoemaTokens` acting on the shared regex state: the source resets
`lastIndex` to 0 before `test`, so the incoming state is ignored. -/
def hasNoemaTokensS (_σ : Nat) (l : List Char) : Bool × Nat := testExec l 0

/-- One call to the decode module: `true` selects `decodeNoema`,
`false` selects `hasNoemaTokens`; the shared `lastIndex` is threaded. -/
def noemaCall : Bool × List Char → Nat → (List Char ⊕ Bool) × Nat
  | (true, t), σ => (Sum.inl (decodeNoemaS σ t).1, (decodeNoemaS σ t).2)
  | (false, t), σ => (Sum.inr (hasNoemaTokensS σ t).1, (hasNoemaTokensS σ t).2)

/-- Run a sequence of interleaved calls against the shared regex state,
collecting each call's result. -/
def runCalls : Nat → List (Bool × List Char) → List (List Char ⊕ Bool)
  | _, [] => []
  | σ, c :: cs => (noemaCall c σ).1 :: runCalls (noemaCall c σ).2 cs

theorem testExec_fst : ∀ (l : List Char) (i : Nat), (testExec l i).1 = hasNoemaTokens l := by
  intro l
  induction l with
  | nil => intro i; rfl
  | cons c t ih =>
    intro i
    simp only [testExec, hasNoemaTokens]
    cases htt : tryToken (c :: t) with
    | some pr => simp
    | none => simp [ih (i + 1)]

/-! ### Claims C1-C5 -/

/-- C1 counterexample: the claim fails at the empty string.  base64 of the
empty string is empty, the token pattern requires a nonempty payload, so
`decodeNoema` returns the token `§b64:§` unchanged instead of `""`. -/
theorem claim1_counterexample :
    decodeNoema (encodeAsToken []) = strL "§b64:§" ∧ decodeNoema (encodeAsToken []) ≠ [] := by
  decide

/-- C1 (amended): for every nonempty UTF-8 string s, decodeNoema applied to
the token encoding of s (the string `§b64:` ++ base64(utf8(s)) ++ `§`)
returns s. -/
theorem claim1_roundtrip_nonempty (s : List Char) (hs : s ≠ []) :
    decodeNoema (encodeAsToken s) = s := by
  have hb := utf8Encode_lt s
  have hne : base64Encode (utf8Encode s) ≠ [] :=
    base64Encode_ne_nil _ (utf8Encode_ne_nil s hs)
  have hall : ∀ c ∈ base64Encode (utf8Encode s), isB64Char c = true :=
    base64Encode_charset _ hb
  show decodeNoema ('§' :: 'b' :: '6' :: '4' :: ':' ::
    (base64Encode (utf8Encode s) ++ '§' :: [])) = s
  rw [decodeNoema_token _ [] hne hall, decodeNoema_nil, List.append_nil]
  unfold decPayload
  rw [nodeB64_roundtrip _ hb, utf8_roundtrip]

theorem claim1_witness :
    strL "Hi" ≠ [] ∧ decodeNoema (encodeAsToken (strL "Hi")) = strL "Hi" :=
  ⟨by decide, claim1_roundtrip_nonempty (strL "Hi") (by decide)⟩

/-- C2 counterexample: `A` is a token payload (it matches `[A-Za-z0-9+/=]+`)
that is not valid standard base64, yet `decodeNoema "§b64:A§"` is the empty
string, not the unchanged input: Node's lenient decoder never fails, so a
matched token is never passed through. -/
theorem claim2_counterexample :
    (strL "A").all isB64Char = true ∧
    validStdBase64 (strL "A") = false ∧
    decodeNoema (strL "§b64:A§") = [] ∧
    decodeNoema (strL "§b64:A§") ≠ strL "§b64:A§" := by
  decide

/-- C2 (amended): a candidate token whose payload contains a character outside
`[A-Za-z0-9+/=]` never matches, so the input is returned unchanged — in
particular `decodeNoema "§b64:not-valid-base64!!§"` is its input — while a
matched token (payload within the class) is always replaced by the lenient
base64-then-UTF-8 decode, which never fails, even on payloads that are not
valid standard base64. -/
theorem claim2_failopen_amended :
    decodeNoema (strL "§b64:not-valid-base64!!§") = strL "§b64:not-valid-base64!!§" ∧
    ∀ p r : List Char, p ≠ [] → (∀ c ∈ p, isB64Char c = true) →
      decodeNoema ('§' :: 'b' :: '6' :: '4' :: ':' :: (p ++ '§' :: r)) =
        decPayload p ++ decodeNoema r := by
  constructor
  · decide
  · intro p r hne hall
    exact decodeNoema_token p r hne hall

theorem claim2_witness :
    (strL "QQ==" ≠ [] ∧ (∀ c ∈ strL "QQ==", isB64Char c = true)) ∧
    decodeNoema ('§' :: 'b' :: '6' :: '4' :: ':' :: (strL "QQ==" ++ '§' :: [])) =
      decPayload (strL "QQ==") ++ decodeNoema [] :=
  ⟨⟨by decide, by decide⟩,
    claim2_failopen_amended.2 (strL "QQ==") [] (by decide) (by decide)⟩

/-- C3: decodeNoema replaces every token occurrence (open delimiter `§b64:`,
nonempty payload in `[A-Za-z0-9+/=]`, close delimiter `§`) with the decoded
payload bytes read as UTF-8, scanning leftmost-first without rescanning
replacements, and copies every character that does not start a match; on the
spec's example it yields `A A B B`. -/
theorem claim3_token_replacement :
    (∀ (c : Char) (t : List Char), tryToken (c :: t) = none →
      decodeNoema (c :: t) = c :: decodeNoema t) ∧
    (∀ p r : List Char, p ≠ [] → (∀ c ∈ p, isB64Char c = true) →
      decodeNoema ('§' :: 'b' :: '6' :: '4' :: ':' :: (p ++ '§' :: r)) =
        decPayload p ++ decodeNoema r) ∧
    decodeNoema (strL "A §b64:QQ==§ B §b64:Qg==§") = strL "A A B B" := by
  refine ⟨fun c t h => decodeNoema_cons_none h,
    fun p r hne hall => decodeNoema_token p r hne hall, ?_⟩
  decide

theorem claim3_witness :
    tryToken ['A'] = none ∧ decodeNoema ['A'] = 'A' :: decodeNoema [] :=
  ⟨by decide, claim3_token_replacement.1 'A' [] (by decide)⟩

/-- C4: whenever hasNoemaTokens is false, decodeNoema is the identity. -/
theorem claim4_decode_id_of_no_tokens (t : List Char) (h : hasNoemaTokens t = false) :
    decodeNoema t = t := by
  induction t with
  | nil => rfl
  | cons c t ih =>
    simp only [hasNoemaTokens, Bool.or_eq_false_iff] at h
    cases htt : tryToken (c :: t) with
    | some pr => rw [htt] at h; simp at h
    | none => rw [decodeNoema_cons_none htt, ih h.2]

theorem claim4_witness :
    hasNoemaTokens (strL "no tokens here") = false ∧
    decodeNoema (strL "no tokens here") = strL "no tokens here" :=
  ⟨by decide, claim4_decode_id_of_no_tokens (strL "no tokens here") (by decide)⟩

/-- C5: decodeNoema and hasNoemaTokens are pure and deterministic — any
interleaved sequence of calls, started from any shared regex state, returns
for every call exactly the pure function of that call's input, so no call
changes the result of any later call. -/
theorem claim5_pure_stateless :
    ∀ (σ₁ σ₂ : Nat) (calls : List (Bool × List Char)),
      runCalls σ₁ calls =
        calls.map (fun c => if c.1 then Sum.inl (decodeNoema c.2) else Sum.inr (hasNoemaTokens c.2)) ∧
      runCalls σ₁ calls = runCalls σ₂ calls := by
  have key : ∀ (σ : Nat) (calls : List (Bool × List Char)),
      runCalls σ calls =
        calls.map (fun c => if c.1 then Sum.inl (decodeNoema c.2) else Sum.inr (hasNoemaTokens c.2)) := by
    intro σ calls
    induction calls generalizing σ with
    | nil => rfl
    | cons c cs ih =>
      obtain ⟨b, t⟩ := c
      cases b with
      | true => simp [runCalls, noemaCall, decodeNoemaS, ih]
      | false => simp [runCalls, noemaCall, hasNoemaTokensS, testExec_fst, ih]
  intro σ₁ σ₂ calls
  exact ⟨key σ₁ calls, (key σ₁ calls).trans (key σ₂ calls).symm⟩

/-!
Part 2 embeds the Noema HTTP client (src/client.ts), the tools (src/tools.ts)
and — modelled from the spec — the proxy-side Request Ledger.

Agent-supplied JSON values (schema, input, output) are abstracted by a type
parameter `V`.  Time is measured in eighths of a millisecond so that the
poll-interval growth `interval * 1.5` (exact in JS doubles for the reachable
values 500, 750, 1125, 1687.5, 2531.25, 3796.875) stays integral: 500 ms is
4000 units, the 5000 ms cap is 40000 units, and a wall-clock timeout of
`timeoutMs` is `8 * timeoutMs` units.  `env n` is the HTTP response to the
n-th result fetch and `lat n` any extra latency of that iteration;
`error_details` bodies are not modelled. -/

/-- The configured role of the extension. -/
inductive NoemaRole where
  | requester
  | provider
  | both
deriving DecidableEq

/-- `NoemaConfig` from src/types.ts. -/
structure NoemaConfig where
  proxyUrl : List Char
  token : List Char
  role : NoemaRole
  subscriptions : Option (List (List Char))

/-- `config.proxyUrl.replace(/\/+$/, "")`: strip every trailing slash. -/
def stripTrailingSlashes (l : List Char) : List Char :=
  (l.reverse.dropWhile (fun c => c = '/')).reverse

/-- The `NoemaClient` state after its constructor ran: the normalized proxy
URL and the bearer token. -/
structure NoemaClientM where
  proxyUrl : List Char
  token : List Char

/-- The `NoemaClient` constructor. -/
def NoemaClientM.ofConfig (cfg : NoemaConfig) : NoemaClientM :=
  ⟨stripTrailingSlashes cfg.proxyUrl, cfg.token⟩

/-- `NoemaClient.fetch` URL construction: `${this.proxyUrl}${path}`. -/
def clientFetchUrl (cl : NoemaClientM) (path : List Char) : List Char :=
  cl.proxyUrl ++ path

/-- A `/result` response body parsed as a `NoemaResult`. -/
structure ResultBody (V : Type) where
  status : List Char
  output : Option V
  error_code : Option (List Char)

/-- An HTTP response to a client fetch: the status code and the JSON body when
the body parses (`none` when `json()` would fail). -/
structure FetchResp (V : Type) where
  status : Nat
  result : Option (ResultBody V)

/-- `NoemaClient.parseError`: `data.error_code` of the JSON body, or
INTERNAL_ERROR when the body is not JSON or carries no code. -/
def parseErrorCode {V : Type} (r : FetchResp V) : List Char :=
  match r.result with
  | some b => b.error_code.getD (strL "INTERNAL_ERROR")
  | none => strL "INTERNAL_ERROR"

/-- `NoemaRequestResult` from src/types.ts (without `error_details`). -/
structure NoemaRequestResult (V : Type) where
  success : Bool
  request_id : List Char
  output : Option V
  error_code : Option (List Char)

/-- Outcome of the polling loop: a returned result, or a JS exception
(`json()` failing on a response whose `ok` was true, which the source does
not catch). -/
inductive LoopOut (V : Type) where
  | ret (r : NoemaRequestResult V)
  | thrown

/-- `pollInterval = Math.min(pollInterval * 1.5, maxPollInterval)` in
eighth-millisecond units. -/
def nextInterval (i : Nat) : Nat := min (i * 3 / 2) 40000

/-- The wait-for-result loop of `NoemaClient.request` (src/client.ts lines
600-638): while wall-clock time is below the timeout, sleep the current
interval, fetch `/result/<id>`; an ok response returns success or the body's
error code; 404 grows the interval and continues; any other status returns
the parsed error code; leaving the loop returns TIMEOUT.  `fuel` bounds the
modelled iterations; `none` means fuel ran out (never with the fuel bound
proved below). -/
def pollLoop {V : Type} (env : Nat → FetchResp V) (lat : Nat → Nat) (rid : List Char)
    (timeout8 : Nat) : Nat → Nat → Nat → Nat → Option (LoopOut V)
  | 0, _, elapsed, _ =>
    if elapsed < timeout8 then none
    else some (.ret ⟨false, rid, none, some (strL "TIMEOUT")⟩)
  | fuel + 1, n, elapsed, interval =>
    if elapsed < timeout8 then
      let resp := env n
      if 200 ≤ resp.status ∧ resp.status < 300 then
        match resp.result with
        | some body =>
          if body.status = strL "success" then
            some (.ret ⟨true, rid, body.output, none⟩)
          else
            some (.ret ⟨false, rid, none, body.error_code⟩)
        | none => some .thrown
      else if resp.status = 404 then
        pollLoop env lat rid timeout8 fuel (n + 1) (elapsed + interval + lat n) (nextInterval interval)
      else some (.ret ⟨false, rid, none, some (parseErrorCode resp)⟩)
    else some (.ret ⟨false, rid, none, some (strL "TIMEOUT")⟩)

/-- `NoemaClient.request` after the initial POST: a failed POST returns its
parsed error code; otherwise the polling loop runs from elapsed 0 with a
500 ms interval. -/
def requestOutcome {V : Type} (postResp : FetchResp V) (env : Nat → FetchResp V)
    (lat : Nat → Nat) (rid : List Char) (timeoutMs fuel : Nat) : Option (LoopOut V) :=
  if 200 ≤ postResp.status ∧ postResp.status < 300 then
    pollLoop env lat rid (8 * timeoutMs) fuel 0 0 4000
  else some (.ret ⟨false, rid, none, some (parseErrorCode postResp)⟩)

/-- HTTP method of a client call. -/
inductive HttpMethod where
  | get
  | post
deriving DecidableEq

/-- JSON bodies the client sends (src/types.ts payload types). -/
inductive ReqBody (V : Type) where
  | request (request_id : List Char) (schema : V) (input : V) (timeout_ms : Nat)
  | poll
  | response (request_id : List Char) (output : V)

/-- One HTTP call issued through `NoemaClient.fetch`. -/
structure TraceCall (V : Type) where
  url : List Char
  httpMethod : HttpMethod
  body : Option (ReqBody V)

/-- The GET `/result/<id>` calls the polling loop issues, one per iteration
that enters the loop body. -/
def resultCalls {V : Type} (cl : NoemaClientM) (env : Nat → FetchResp V) (lat : Nat → Nat)
    (rid : List Char) (timeout8 : Nat) : Nat → Nat → Nat → Nat → List (TraceCall V)
  | 0, _, _, _ => []
  | fuel + 1, n, elapsed, interval =>
    if elapsed < timeout8 then
      ⟨clientFetchUrl cl (strL "/result/" ++ rid), .get, none⟩ ::
      (let resp := env n
       if 200 ≤ resp.status ∧ resp.status < 300 then []
       else if resp.status = 404 then
         resultCalls cl env lat rid timeout8 fuel (n + 1) (elapsed + interval + lat n) (nextInterval interval)
       else [])
    else []

/-- Every HTTP call `NoemaClient.request` issues: the POST `/request` with the
payload, then — when the POST was ok — the result fetches. -/
def requestTrace {V : Type} (cl : NoemaClientM) (postResp : FetchResp V)
    (env : Nat → FetchResp V) (lat : Nat → Nat) (rid : List Char) (schema input : V)
    (timeoutMs fuel : Nat) : List (TraceCall V) :=
  ⟨clientFetchUrl cl (strL "/request"), .post, some (.request rid schema input timeoutMs)⟩ ::
  (if 200 ≤ postResp.status ∧ postResp.status < 300 then
     resultCalls cl env lat rid (8 * timeoutMs) fuel 0 0 4000
   else [])

/-- The single HTTP call `NoemaClient.poll` issues. -/
def pollTrace (V : Type) (cl : NoemaClientM) : List (TraceCall V) :=
  [⟨clientFetchUrl cl (strL "/poll"), .post, some .poll⟩]

/-- The single HTTP call `NoemaClient.respond` issues. -/
def respondTrace {V : Type} (cl : NoemaClientM) (rid : List Char) (output : V) :
    List (TraceCall V) :=
  [⟨clientFetchUrl cl (strL "/response"), .post, some (.response rid output)⟩]

/-- What a tool's execute returns (the JSON payload of its text content).
The role-gate message in the source quotes the role names with single quotes;
the quotes are omitted here. -/
inductive ToolOut (V : Type) where
  | roleError (error : List Char) (configured_role : NoemaRole)
  | missingRequestId (error : List Char)
  | requestDone (r : Option (LoopOut V))
  | pollDone (resp : FetchResp V)
  | respondDone (resp : FetchResp V)

/-- `noema_request` tool execute (src/tools.ts lines 51-102): the role gate
returns an error payload and performs no client call; otherwise
`client.request` runs, issuing its trace of HTTP calls. -/
def noemaRequestExec {V : Type} (role : NoemaRole) (cl : NoemaClientM)
    (postResp : FetchResp V) (env : Nat → FetchResp V) (lat : Nat → Nat)
    (rid : List Char) (schema input : V) (timeoutMs fuel : Nat) :
    List (TraceCall V) × ToolOut V :=
  if role ≠ .requester ∧ role ≠ .both then
    ([], .roleError (strL "noema_request requires requester or both role") role)
  else
    (requestTrace cl postResp env lat rid schema input timeoutMs fuel,
     .requestDone (requestOutcome postResp env lat rid timeoutMs fuel))

/-- `noema_poll` tool execute (src/tools.ts lines 119-162). -/
def noemaPollExec {V : Type} (role : NoemaRole) (cl : NoemaClientM)
    (pollResp : FetchResp V) : List (TraceCall V) × ToolOut V :=
  if role ≠ .provider ∧ role ≠ .both then
    ([], .roleError (strL "noema_poll requires provider or both role") role)
  else (pollTrace V cl, .pollDone pollResp)

/-- `noema_respond` tool execute (src/tools.ts lines 188-246): role gate,
then the falsy check on `request_id`, then `client.respond`. -/
def noemaRespondExec {V : Type} (role : NoemaRole) (cl : NoemaClientM)
    (respondResp : FetchResp V) (rid : List Char) (output : V) :
    List (TraceCall V) × ToolOut V :=
  if role ≠ .provider ∧ role ≠ .both then
    ([], .roleError (strL "noema_respond requires provider or both role") role)
  else if rid = [] then
    ([], .missingRequestId (strL "request_id is required"))
  else (respondTrace cl rid output, .respondDone respondResp)

/-- Status of a ledger Request (spec §3). -/
inductive ReqStatus (V : Type) where
  | pending
  | fulfilled (output : V)
  | failed (code : List Char)
  | expired
deriving DecidableEq

/-- A ledger entry: the status and the timeout deadline. -/
structure LedgerEntry (V : Type) where
  status : ReqStatus V
  deadline : Nat
deriving DecidableEq

/-- The Request Ledger, keyed by request identifier. -/
abbrev Ledger (V : Type) := List (List Char × LedgerEntry V)

/-- Outcome `submitResponse` reports to the provider (spec §4.4: limited to
REQUEST_NOT_FOUND on any failure). -/
inductive SubmitResult where
  | ok
  | requestNotFound
deriving DecidableEq

/-- Look a request up by identifier. -/
def ledLookup {V : Type} (rid : List Char) : Ledger V → Option (LedgerEntry V)
  | [] => none
  | (k, e) :: rest => if k = rid then some e else ledLookup rid rest

/-- Replace the entry stored under an identifier. -/
def ledUpdate {V : Type} (rid : List Char) (e2 : LedgerEntry V) : Ledger V → Ledger V
  | [] => []
  | (k, e) :: rest => if k = rid then (k, e2) :: rest else (k, e) :: ledUpdate rid e2 rest

/-- Modelled from the spec: the Request Ledger's `submitResponse` (§4.3, §5)
is part of the relay proxy, which is not in this repository.  It is the one
atomic compare-and-set: inside a single atomic step it looks the request up,
re-checks the deadline (lazy expiry), and transitions pending to fulfilled
with the submitted output; a missing, expired or non-pending request reports
REQUEST_NOT_FOUND and leaves the ledger unchanged. -/
def submitResponse {V : Type} (now : Nat) (led : Ledger V) (rid : List Char) (output : V) :
    Ledger V × SubmitResult :=
  match ledLookup rid led with
  | none => (led, .requestNotFound)
  | some e =>
    match e.status with
    | .pending =>
      if now < e.deadline then
        (ledUpdate rid ⟨.fulfilled output, e.deadline⟩ led, .ok)
      else (led, .requestNotFound)
    | _ => (led, .requestNotFound)

/-! ### Loop lemmas -/

theorem nextInterval_bounds (i : Nat) (h : 4000 ≤ i) :
    4000 ≤ nextInterval i ∧ nextInterval i ≤ 40000 := by
  unfold nextInterval
  omega

theorem pollLoop_404_timeout {V : Type} (env : Nat → FetchResp V) (lat : Nat → Nat)
    (rid : List Char) (timeout8 : Nat) (h404 : ∀ n, (env n).status = 404) :
    ∀ fuel n elapsed interval, 4000 ≤ interval → timeout8 ≤ elapsed + fuel * 4000 →
      pollLoop env lat rid timeout8 fuel n elapsed interval =
        some (.ret ⟨false, rid, none, some (strL "TIMEOUT")⟩) := by
  intro fuel
  induction fuel with
  | zero =>
    intro n elapsed interval _ hb
    simp only [pollLoop]
    rw [if_neg (by omega)]
  | succ fuel ih =>
    intro n elapsed interval hi hb
    simp only [pollLoop]
    by_cases he : elapsed < timeout8
    · rw [if_pos he, if_neg (by rw [h404 n]; omega), if_pos (h404 n)]
      exact ih (n + 1) (elapsed + interval + lat n) (nextInterval interval)
        (nextInterval_bounds interval hi).1 (by omega)
    · rw [if_neg he]

theorem pollLoop_ne_none {V : Type} (env : Nat → FetchResp V) (lat : Nat → Nat)
    (rid : List Char) (timeout8 : Nat) :
    ∀ fuel n elapsed interval, 4000 ≤ interval → timeout8 ≤ elapsed + fuel * 4000 →
      pollLoop env lat rid timeout8 fuel n elapsed interval ≠ none := by
  intro fuel
  induction fuel with
  | zero =>
    intro n elapsed interval _ hb
    simp only [pollLoop]
    rw [if_neg (by omega)]
    simp
  | succ fuel ih =>
    intro n elapsed interval hi hb
    simp only [pollLoop]
    by_cases he : elapsed < timeout8
    · rw [if_pos he]
      by_cases hok : 200 ≤ (env n).status ∧ (env n).status < 300
      · rw [if_pos hok]
        cases (env n).result with
        | none => simp
        | some body =>
          by_cases hs : body.status = strL "success"
          · simp [hs]
          · simp [hs]
      · rw [if_neg hok]
        by_cases h4 : (env n).status = 404
        · rw [if_pos h4]
          exact ih (n + 1) (elapsed + interval + lat n) (nextInterval interval)
            (nextInterval_bounds interval hi).1 (by omega)
        · rw [if_neg h4]
          simp
    · rw [if_neg he]
      simp

/-- C6: the wait-for-result loop starts at a 500 ms interval, the backoff
update keeps every interval between 500 ms and the 5000 ms cap, the loop
performs at most `timeoutMs/500 + 1` polls (the fuel bound below never runs
out), and when every result fetch reports 404 within the window the loop
terminates with success false, error code TIMEOUT and the original
request_id.  Times are in eighth-milliseconds: 4000 = 500 ms, 40000 =
5000 ms, `8 * timeoutMs` = the wall-clock timeout. -/
theorem claim6_timeout_backoff {V : Type} (env : Nat → FetchResp V) (lat : Nat → Nat)
    (rid : List Char) (timeoutMs : Nat) :
    (∀ i, 4000 ≤ i → 4000 ≤ nextInterval i ∧ nextInterval i ≤ 40000) ∧
    pollLoop env lat rid (8 * timeoutMs) (8 * timeoutMs / 4000 + 1) 0 0 4000 ≠ none ∧
    ((∀ n, (env n).status = 404) →
      pollLoop env lat rid (8 * timeoutMs) (8 * timeoutMs / 4000 + 1) 0 0 4000 =
        some (.ret ⟨false, rid, none, some (strL "TIMEOUT")⟩)) := by
  refine ⟨nextInterval_bounds, ?_, ?_⟩
  · exact pollLoop_ne_none env lat rid (8 * timeoutMs) _ 0 0 4000 (by omega) (by omega)
  · intro h404
    exact pollLoop_404_timeout env lat rid (8 * timeoutMs) h404 _ 0 0 4000 (by omega) (by omega)

/-- The all-404 environment (result never ready). -/
def fetch404 : Nat → FetchResp Nat := fun _ => ⟨404, none⟩

/-- An environment whose result fetch always fails with HTTP 500 and an
unparseable body. -/
def fetch500 : Nat → FetchResp Nat := fun _ => ⟨500, none⟩

/-- Zero extra latency. -/
def lat0 : Nat → Nat := fun _ => 0

theorem claim6_witness :
    4000 ≤ nextInterval 4000 ∧
    pollLoop fetch404 lat0 (strL "r") (8 * 1) (8 * 1 / 4000 + 1) 0 0 4000 =
      some (.ret ⟨false, strL "r", none, some (strL "TIMEOUT")⟩) :=
  ⟨((claim6_timeout_backoff fetch404 lat0 (strL "r") 1).1 4000 (by decide)).1,
   (claim6_timeout_backoff fetch404 lat0 (strL "r") 1).2.2 (fun _ => rfl)⟩

/-- C7: inside the polling loop, while the timeout window is open, a result
fetch answering 404 is treated as still pending — the loop continues with the
next iteration (backoff applied) instead of returning an error — whereas any
other non-ok response makes the request return immediately with success false
and the parsed error code. -/
theorem claim7_pending_404 {V : Type} (env : Nat → FetchResp V) (lat : Nat → Nat)
    (rid : List Char) (timeout8 fuel n elapsed interval : Nat) (h : elapsed < timeout8) :
    ((env n).status = 404 →
      pollLoop env lat rid timeout8 (fuel + 1) n elapsed interval =
        pollLoop env lat rid timeout8 fuel (n + 1) (elapsed + interval + lat n)
          (nextInterval interval)) ∧
    (¬(200 ≤ (env n).status ∧ (env n).status < 300) → (env n).status ≠ 404 →
      pollLoop env lat rid timeout8 (fuel + 1) n elapsed interval =
        some (.ret ⟨false, rid, none, some (parseErrorCode (env n))⟩)) := by
  constructor
  · intro h404
    simp only [pollLoop]
    rw [if_pos h, if_neg (by rw [h404]; omega), if_pos h404]
  · intro hok h404
    simp only [pollLoop]
    rw [if_pos h, if_neg hok, if_neg h404]

theorem claim7_witness :
    (0 : Nat) < 8 ∧
    pollLoop fetch404 lat0 (strL "r") 8 1 0 0 4000 =
      pollLoop fetch404 lat0 (strL "r") 8 0 1 (0 + 4000 + lat0 0) (nextInterval 4000) ∧
    pollLoop fetch500 lat0 (strL "r") 8 1 0 0 4000 =
      some (.ret ⟨false, strL "r", none, some (parseErrorCode (fetch500 0))⟩) :=
  ⟨by decide,
   (claim7_pending_404 fetch404 lat0 (strL "r") 8 0 0 0 4000 (by decide)).1 rfl,
   (claim7_pending_404 fetch500 lat0 (strL "r") 8 0 0 0 4000 (by decide)).2
     (by decide) (by decide)⟩

/-! ### Ledger lemmas -/

theorem ledLookup_update {V : Type} (rid : List Char) (e2 : LedgerEntry V) :
    ∀ led : Ledger V, (ledLookup rid led).isSome →
      ledLookup rid (ledUpdate rid e2 led) = some e2 := by
  intro led
  induction led with
  | nil => intro h; simp [ledLookup] at h
  | cons kv rest ih =>
    obtain ⟨k, e⟩ := kv
    intro h
    by_cases hk : k = rid
    · simp [ledUpdate, ledLookup, hk]
    · simp only [ledUpdate, ledLookup, if_neg hk] at h ⊢
      exact ih h

/-- C8 (spec-modelled): against a ledger holding a pending, unexpired
request, two racing `submitResponse` calls — serialized in either order by
the atomic compare-and-set, with arbitrary outputs and submission times —
behave single-winner: the first succeeds and fulfills the request with its
output, the second observes REQUEST_NOT_FOUND and leaves the ledger
unchanged.  Both interleavings are instances, since o1, o2, now1, now2 are
arbitrary. -/
theorem claim8_single_winner {V : Type} (led : Ledger V) (rid : List Char)
    (e : LedgerEntry V) (o1 o2 : V) (now1 now2 : Nat)
    (hfind : ledLookup rid led = some e) (hp : e.status = ReqStatus.pending)
    (hd : now1 < e.deadline) :
    (submitResponse now1 led rid o1).2 = .ok ∧
    ledLookup rid (submitResponse now1 led rid o1).1 =
      some ⟨ReqStatus.fulfilled o1, e.deadline⟩ ∧
    (submitResponse now2 (submitResponse now1 led rid o1).1 rid o2).2 = .requestNotFound ∧
    (submitResponse now2 (submitResponse now1 led rid o1).1 rid o2).1 =
      (submitResponse now1 led rid o1).1 := by
  have h1 : submitResponse now1 led rid o1 =
      (ledUpdate rid ⟨ReqStatus.fulfilled o1, e.deadline⟩ led, .ok) := by
    simp [submitResponse, hfind, hp, hd]
  have h2 : ledLookup rid (ledUpdate rid ⟨ReqStatus.fulfilled o1, e.deadline⟩ led) =
      some ⟨ReqStatus.fulfilled o1, e.deadline⟩ :=
    ledLookup_update rid _ led (by rw [hfind]; rfl)
  have h3 : submitResponse now2 (ledUpdate rid ⟨ReqStatus.fulfilled o1, e.deadline⟩ led) rid o2 =
      (ledUpdate rid ⟨ReqStatus.fulfilled o1, e.deadline⟩ led, .requestNotFound) := by
    simp [submitResponse, h2]
  rw [h1]
  refine ⟨rfl, h2, ?_, ?_⟩
  · show (submitResponse now2 (ledUpdate rid ⟨ReqStatus.fulfilled o1, e.deadline⟩ led) rid o2).2 = _
    rw [h3]
  · show (submitResponse now2 (ledUpdate rid ⟨ReqStatus.fulfilled o1, e.deadline⟩ led) rid o2).1 = _
    rw [h3]

/-- A one-entry demonstration ledger: request `r`, pending, deadline 10. -/
def demoLedger : Ledger Nat := [(strL "r", ⟨ReqStatus.pending, 10⟩)]

theorem claim8_witness :
    (ledLookup (strL "r") demoLedger = some ⟨ReqStatus.pending, 10⟩ ∧ (5 : Nat) < 10) ∧
    (submitResponse 5 demoLedger (strL "r") 1).2 = .ok ∧
    ledLookup (strL "r") (submitResponse 5 demoLedger (strL "r") 1).1 =
      some ⟨ReqStatus.fulfilled 1, 10⟩ ∧
    (submitResponse 7 (submitResponse 5 demoLedger (strL "r") 1).1 (strL "r") 2).2 =
      .requestNotFound :=
  ⟨⟨by decide, by decide⟩,
   (claim8_single_winner demoLedger (strL "r") ⟨ReqStatus.pending, 10⟩ 1 2 5 7
     (by decide) rfl (by decide)).1,
   (claim8_single_winner demoLedger (strL "r") ⟨ReqStatus.pending, 10⟩ 1 2 5 7
     (by decide) rfl (by decide)).2.1,
   (claim8_single_winner demoLedger (strL "r") ⟨ReqStatus.pending, 10⟩ 1 2 5 7
     (by decide) rfl (by decide)).2.2.1⟩

/-! ### URL and role-gate claims -/

theorem resultCalls_url {V : Type} (cl : NoemaClientM) (env : Nat → FetchResp V)
    (lat : Nat → Nat) (rid : List Char) (timeout8 : Nat) :
    ∀ fuel n elapsed interval, ∀ call ∈ resultCalls cl env lat rid timeout8 fuel n elapsed interval,
      call.url = clientFetchUrl cl (strL "/result/" ++ rid) := by
  intro fuel
  induction fuel with
  | zero => intro n elapsed interval call hc; simp [resultCalls] at hc
  | succ fuel ih =>
    intro n elapsed interval call hc
    simp only [resultCalls] at hc
    by_cases he : elapsed < timeout8
    · rw [if_pos he] at hc
      simp only [List.mem_cons] at hc
      rcases hc with rfl | hc
      · rfl
      · by_cases hok : 200 ≤ (env n).status ∧ (env n).status < 300
        · rw [if_pos hok] at hc
          simp at hc
        · rw [if_neg hok] at hc
          by_cases h4 : (env n).status = 404
          · rw [if_pos h4] at hc
            exact ih _ _ _ call hc
          · rw [if_neg h4] at hc
            simp at hc
    · rw [if_neg he] at hc
      simp at hc

/-- C9: every HTTP call the client issues goes to the configured proxy URL
(trailing slashes stripped by the constructor) followed by one of the fixed
paths `/request`, `/result/<request_id>`, `/poll`, `/response`; and the
agent-supplied schema, input and output values never influence the URL list
of a run — they travel only in request bodies. -/
theorem claim9_fixed_urls {V : Type} (cfg : NoemaConfig) (postResp : FetchResp V)
    (env : Nat → FetchResp V) (lat : Nat → Nat) (rid : List Char)
    (schema input schema2 input2 output output2 : V) (timeoutMs fuel : Nat) :
    (∀ call ∈ requestTrace (NoemaClientM.ofConfig cfg) postResp env lat rid schema input timeoutMs fuel,
      call.url = stripTrailingSlashes cfg.proxyUrl ++ strL "/request" ∨
      call.url = stripTrailingSlashes cfg.proxyUrl ++ (strL "/result/" ++ rid)) ∧
    (requestTrace (NoemaClientM.ofConfig cfg) postResp env lat rid schema input timeoutMs fuel).map TraceCall.url =
      (requestTrace (NoemaClientM.ofConfig cfg) postResp env lat rid schema2 input2 timeoutMs fuel).map TraceCall.url ∧
    (∀ call ∈ pollTrace V (NoemaClientM.ofConfig cfg),
      call.url = stripTrailingSlashes cfg.proxyUrl ++ strL "/poll") ∧
    (∀ call ∈ respondTrace (NoemaClientM.ofConfig cfg) rid output,
      call.url = stripTrailingSlashes cfg.proxyUrl ++ strL "/response") ∧
    (respondTrace (NoemaClientM.ofConfig cfg) rid output).map TraceCall.url =
      (respondTrace (NoemaClientM.ofConfig cfg) rid output2).map TraceCall.url := by
  refine ⟨?_, rfl, ?_, ?_, rfl⟩
  · intro call hc
    simp only [requestTrace, List.mem_cons] at hc
    rcases hc with rfl | hc
    · left; rfl
    · by_cases hok : 200 ≤ postResp.status ∧ postResp.status < 300
      · rw [if_pos hok] at hc
        right
        exact resultCalls_url (NoemaClientM.ofConfig cfg) env lat rid (8 * timeoutMs) fuel 0 0 4000 call hc
      · rw [if_neg hok] at hc
        simp at hc
  · intro call hc
    simp only [pollTrace, List.mem_singleton] at hc
    subst hc
    rfl
  · intro call hc
    simp only [respondTrace, List.mem_singleton] at hc
    subst hc
    rfl

/-- A demonstration configuration whose proxy URL carries trailing slashes. -/
def demoCfg : NoemaConfig :=
  ⟨strL "https://proxy.example//", strL "tok", NoemaRole.both, none⟩

theorem claim9_witness :
    (⟨clientFetchUrl (NoemaClientM.ofConfig demoCfg) (strL "/poll"), HttpMethod.post,
        some ReqBody.poll⟩ : TraceCall Nat) ∈ pollTrace Nat (NoemaClientM.ofConfig demoCfg) ∧
    (⟨clientFetchUrl (NoemaClientM.ofConfig demoCfg) (strL "/poll"), HttpMethod.post,
        some ReqBody.poll⟩ : TraceCall Nat).url =
      stripTrailingSlashes demoCfg.proxyUrl ++ strL "/poll" :=
  ⟨List.mem_singleton.mpr rfl,
   (claim9_fixed_urls demoCfg ⟨500, none⟩ fetch404 lat0 (strL "r")
      0 0 0 0 0 0 5 1).2.2.1 _ (List.mem_singleton.mpr rfl)⟩

/-- C10: a tool invoked under a role that does not permit it returns the
role-error payload naming the required roles and the configured role and
issues no HTTP call (its call trace is empty): noema_request needs requester
or both, noema_poll and noema_respond need provider or both. -/
theorem claim10_role_gate {V : Type} (role : NoemaRole) (cl : NoemaClientM)
    (postResp pollResp respondResp : FetchResp V) (env : Nat → FetchResp V)
    (lat : Nat → Nat) (rid : List Char) (schema input output : V) (timeoutMs fuel : Nat) :
    (role ≠ .requester ∧ role ≠ .both →
      noemaRequestExec role cl postResp env lat rid schema input timeoutMs fuel =
        ([], .roleError (strL "noema_request requires requester or both role") role)) ∧
    (role ≠ .provider ∧ role ≠ .both →
      noemaPollExec role cl pollResp =
        ([], .roleError (strL "noema_poll requires provider or both role") role) ∧
      noemaRespondExec role cl respondResp rid output =
        ([], .roleError (strL "noema_respond requires provider or both role") role)) := by
  constructor
  · intro h
    unfold noemaRequestExec
    rw [if_pos h]
  · intro h
    constructor
    · unfold noemaPollExec
      rw [if_pos h]
    · unfold noemaRespondExec
      rw [if_pos h]

/-- A demonstration client. -/
def demoClient : NoemaClientM := ⟨strL "https://proxy.example", strL "tok"⟩

theorem claim10_witness :
    noemaRequestExec (V := Nat) .provider demoClient ⟨500, none⟩ fetch404 lat0
        (strL "r") 0 0 5 1 =
      ([], .roleError (strL "noema_request requires requester or both role") .provider) ∧
    noemaPollExec (V := Nat) .requester demoClient ⟨500, none⟩ =
      ([], .roleError (strL "noema_poll requires provider or both role") .requester) ∧
    noemaRespondExec (V := Nat) .requester demoClient ⟨500, none⟩ (strL "r") 0 =
      ([], .roleError (strL "noema_respond requires provider or both role") .requester) :=
  ⟨(claim10_role_gate .provider demoClient ⟨500, none⟩ ⟨500, none⟩ ⟨500, none⟩ fetch404 lat0
      (strL "r") 0 0 0 5 1).1 ⟨by decide, by decide⟩,
   ((claim10_role_gate .requester demoClient ⟨500, none⟩ ⟨500, none⟩ ⟨500, none⟩ fetch404 lat0
      (strL "r") 0 0 0 5 1).2 ⟨by decide, by decide⟩).1,
   ((claim10_role_gate .requester demoClient ⟨500, none⟩ ⟨500, none⟩ ⟨500, none⟩ fetch404 lat0
      (strL "r") 0 0 0 5 1).2 ⟨by decide, by decide⟩).2⟩
